import Mathlib

/-!
Verification development for the `russh-config` crate
(`src/russh-config/src/lib.rs`): an OpenSSH-style client configuration
parser producing a resolved connection profile, together with percent-token
expansion and stream establishment dispatch.

Machine strings are modelled as `List Char`; the external providers
(current username, home directory, address resolution) are passed in
explicitly as an environment, following the spec's design notes (§9).
-/

namespace RusshConfig

/-- Strings of the modelled program, as lists of characters. -/
abbrev Str := List Char

instance {ε α : Type} [DecidableEq ε] [DecidableEq α] : DecidableEq (Except ε α) := fun x y =>
  match x, y with
  | .ok a, .ok b =>
    if h : a = b then isTrue (by rw [h]) else isFalse (by simp [h])
  | .error a, .error b =>
    if h : a = b then isTrue (by rw [h]) else isFalse (by simp [h])
  | .ok _, .error _ => isFalse (by simp)
  | .error _, .ok _ => isFalse (by simp)

/-- The straight single-quote character stripped from `IdentityFile` values. -/
def squote : Char := '\''

/-- Rust `str::trim_start`: drop leading whitespace. -/
def trimStart (s : Str) : Str := s.dropWhile Char.isWhitespace

/-- Rust `str::trim_end`: drop trailing whitespace. -/
def trimEnd (s : Str) : Str := (s.reverse.dropWhile Char.isWhitespace).reverse

/-- Rust `str::trim`: drop leading and trailing whitespace. -/
def trim (s : Str) : Str := trimEnd (trimStart s)

/-- Rust `str::to_lowercase`, modelled on the ASCII fragment
(`Char.toLower` lowers exactly the ASCII uppercase letters). -/
def toLower (s : Str) : Str := s.map Char.toLower

/-- Splits a string at the first occurrence of `sep`, if any
(helper for Rust `splitn(2, sep)`). -/
def splitFirst (sep : Char) : Str → Option (Str × Str)
  | [] => none
  | c :: rest =>
    if c = sep then some ([], rest)
    else match splitFirst sep rest with
      | some (a, b) => some (c :: a, b)
      | none => none

/-- Rust `str::splitn(2, sep)`: at most two pieces, split at the first `sep`. -/
def splitn2 (sep : Char) (s : Str) : List Str :=
  match splitFirst sep s with
  | some (a, b) => [a, b]
  | none => [s]

/-- Accumulator loop for `splitWhitespace`. -/
def splitWsAux : Str → Str → List Str
  | [], acc => if acc = [] then [] else [acc.reverse]
  | c :: rest, acc =>
    if c.isWhitespace then
      if acc = [] then splitWsAux rest []
      else acc.reverse :: splitWsAux rest []
    else splitWsAux rest (c :: acc)

/-- Rust `str::split_whitespace`: words separated by runs of whitespace,
no empty words. -/
def splitWhitespace (s : Str) : List Str := splitWsAux s []

/-- Accumulator loop for `splitAllOn`. -/
def splitAllOnAux (sep : Char) : Str → Str → List Str
  | [], acc => [acc.reverse]
  | c :: rest, acc =>
    if c = sep then acc.reverse :: splitAllOnAux sep rest []
    else splitAllOnAux sep rest (c :: acc)

/-- Rust `str::split(sep)`: split at every occurrence of `sep`, keeping
empty pieces; the result is always nonempty. -/
def splitAllOn (sep : Char) (s : Str) : List Str := splitAllOnAux sep s []

/-- Rust `str::lines`: split on `\n`, drop one trailing empty piece
(for an optional final line ending), strip one trailing `\r` per line. -/
def rustLines (s : Str) : List Str :=
  let parts := splitAllOn '\n' s
  let parts := if parts.getLast? = some [] then parts.dropLast else parts
  parts.map (fun l => if l.getLast? = some '\r' then l.dropLast else l)

/-- Fuel-indexed loop for `replaceAll`; the fuel (initially the string's
length) bounds the number of steps, each of which consumes at least one
character, so the `0` case is never reached on a nonempty string. -/
def replaceAllGo (pat rep : Str) : Nat → Str → Str
  | _, [] => []
  | 0, s => s
  | fuel + 1, c :: rest =>
    if pat.isPrefixOf (c :: rest) ∧ pat ≠ [] then
      rep ++ replaceAllGo pat rep fuel ((c :: rest).drop pat.length)
    else
      c :: replaceAllGo pat rep fuel rest

/-- Rust `str::replace(pat, rep)`: replace all non-overlapping occurrences
of `pat`, scanning left to right (the patterns used by the source are the
nonempty literals `%u`, `%h`, `%H`, `%p`, `%%`). -/
def replaceAll (pat rep s : Str) : Str := replaceAllGo pat rep s.length s

/-- Rust `value.parse::<u16>()`: optional leading `+`, then decimal digits
only, value at most 65535; anything else fails. -/
def parseU16 (s : Str) : Option Nat :=
  let digits := match s with
    | '+' :: rest => rest
    | _ => s
  if digits = [] then none
  else if digits.all Char.isDigit then
    let n := digits.foldl (fun a c => a * 10 + (c.toNat - 48)) 0
    if n ≤ 65535 then some n else none
  else none

/-- Modelled from the spec (§4.1): one compiled token of a glob pattern of
the external `globset` crate (not part of this repository's sources):
a literal character, `*`, `?`, or a character class `[...]` with optional
`!` negation. -/
inductive GlobTok
  | lit (c : Char)
  | star
  | qmark
  | cls (neg : Bool) (chars : List Char)
deriving DecidableEq

/-- Scanner state while compiling a glob: either in normal position or
inside a character class accumulating its members. -/
inductive GlobScan
  | normal
  | inCls (neg : Bool) (acc : List Char)

/-- Modelled from the spec (§4.1): compilation of a glob pattern, as done
by the external `globset` crate (`Glob::new`). Fails (returns `none`) on a
malformed pattern, such as an unclosed character class. -/
def globCompileAux : GlobScan → Str → Option (List GlobTok)
  | .normal, [] => some []
  | .normal, '*' :: r => (globCompileAux .normal r).map (.star :: ·)
  | .normal, '?' :: r => (globCompileAux .normal r).map (.qmark :: ·)
  | .normal, '[' :: '!' :: r => globCompileAux (.inCls true []) r
  | .normal, '[' :: r => globCompileAux (.inCls false []) r
  | .normal, c :: r => (globCompileAux .normal r).map (.lit c :: ·)
  | .inCls _ _, [] => none
  | .inCls neg acc, ']' :: r => (globCompileAux .normal r).map (.cls neg acc.reverse :: ·)
  | .inCls neg acc, c :: r => globCompileAux (.inCls neg (c :: acc)) r

/-- Modelled from the spec (§4.1): glob compilation entry point. -/
def globCompile (pattern : Str) : Option (List GlobTok) :=
  globCompileAux .normal pattern

/-- Modelled from the spec (§4.1): matching a compiled glob against a
candidate string: `*` matches any (possibly empty) sequence, `?` any single
character, a class any single member (or non-member when negated). -/
def globMatch : List GlobTok → Str → Bool
  | [], s => s.isEmpty
  | .lit c :: ps, s =>
    match s with
    | [] => false
    | d :: ds => c = d && globMatch ps ds
  | .qmark :: ps, s =>
    match s with
    | [] => false
    | _ :: ds => globMatch ps ds
  | .cls neg cs :: ps, s =>
    match s with
    | [] => false
    | d :: ds => (if neg then !(cs.contains d) else cs.contains d) && globMatch ps ds
  | .star :: ps, s => s.tails.any (fun t => globMatch ps t)

/-- Embeds `check_host_against_glob_pattern` (lib.rs lines 216-221): compile
the pattern per call; a pattern that fails to compile never matches. -/
def check_host_against_glob_pattern (candidate glob_pattern : Str) : Bool :=
  match globCompile glob_pattern with
  | some glob => globMatch glob candidate
  | none => false

/-- Embeds the `AddKeysToAgent` enum: `No` is the default. -/
inductive AddKeysToAgent
  | Yes
  | Confirm
  | Ask
  | No
deriving DecidableEq

/-- Embeds the crate's `Error` enum; `IoE` stands for the source's I/O
variant and carries the originating message. -/
inductive Error
  | HostNotFound
  | NoHome
  | NotResolvable
  | IoE (msg : Str)
deriving DecidableEq

/-- Model of an operating-system path (Rust `PathBuf`) as handed out by the
external home-directory provider: `repr` is `none` when the path is not
representable as a UTF-8 string (`Path::to_str` returning `None`). -/
structure OsPath where
  repr : Option Str
deriving DecidableEq

/-- Rust `PathBuf::push` of a relative string component: joins with a
path separator. -/
def OsPath.push (p : OsPath) (s : Str) : OsPath :=
  ⟨p.repr.map (fun r => r ++ ('/' :: s))⟩

/-- Rust `Path::to_str`. -/
def OsPath.to_str (p : OsPath) : Option Str := p.repr

/-- The ambient providers used by `parse`, passed explicitly:
`whoami::username()` and `home::home_dir()`. -/
structure Env where
  username : Str
  home_dir : Option OsPath
deriving DecidableEq

/-- Embeds the `Config` struct: the resolved connection profile. -/
structure Config where
  user : Str
  host_name : Str
  port : Nat
  identity_file : Option Str
  proxy_command : Option Str
  proxy_jump : Option Str
  add_keys_to_agent : AddKeysToAgent
  user_known_hosts_file : Option Str
  strict_host_key_checking : Bool
deriving DecidableEq

/-- Embeds `Config::default` (lib.rs lines 45-57): profile seeded for the
requested host alias. -/
def Config.default (env : Env) (host_name : Str) : Config where
  user := env.username
  host_name := host_name
  port := 22
  identity_file := none
  proxy_command := none
  proxy_jump := none
  add_keys_to_agent := .No
  user_known_hosts_file := none
  strict_host_key_checking := true

/-- Embeds `Config::expand_tokens` (lib.rs lines 65-73): sequential literal
replacement of `%u`, `%h`, `%H`, `%p`, `%%`, each pass running on the
result of the previous one. -/
def Config.expand_tokens (c : Config) (original : Str) : Str :=
  let s := original
  let s := replaceAll ("%u".toList) c.user s
  let s := replaceAll ("%h".toList) c.host_name s
  let s := replaceAll ("%H".toList) c.host_name s
  let s := replaceAll ("%p".toList) (Nat.toDigits 10 c.port) s
  let s := replaceAll ("%%".toList) ("%".toList) s
  s

/-- Embeds the quote-stripping prelude of the `identityfile` and
`userknownhostsfile` arms (lib.rs lines 145-148 and 178-181): one layer of
leading+trailing straight quotes is removed when both are present and the
value is longer than one character. -/
def stripQuotes (id : Str) : Str :=
  if id.length > 1 ∧ id.head? = some squote ∧ id.getLast? = some squote then
    (id.drop 1).dropLast
  else id

/-- Embeds the tilde-resolution step of the `identityfile` and
`userknownhostsfile` arms (lib.rs lines 149-166): a value starting with
`~/` is joined to the home directory (`NoHome` when the provider has none,
an I/O-kind error when the joined path is not representable as a string);
any other value is kept verbatim. -/
def joinHome (home : OsPath) (rest : Str) : Except Error Str :=
  match (home.push rest).to_str with
  | some s => .ok s
  | none => .error (.IoE ("Failed to convert home directory to string".toList))

/-- Embeds the `if id.starts_with("~/")` branch of those arms: join against
the home directory when present, else fail with `NoHome`. -/
def tildeExpand (env : Env) (id : Str) : Except Error Str :=
  if List.isPrefixOf ("~/".toList) id then
    match env.home_dir with
    | some home => joinHome home (id.drop 2)
    | none => .error .NoHome
  else .ok id

/-- Embeds the shared body of the `identityfile` and `userknownhostsfile`
arms (lib.rs lines 144-168 and 177-201): strip one layer of quotes, then
tilde-expand. -/
def resolveFile (env : Env) (value : Str) : Except Error Str :=
  tildeExpand env (stripQuotes value)

/-- Embeds the directive dispatch of `parse` (lib.rs lines 133-209): the
`match lower.as_str()` arms run while the current `Host` block matches;
`lower` is the lower-cased key and `value` the raw remainder of the line
after the first space. Unknown keys (including `host` itself, which falls
through to the catch-all) leave the profile unchanged. -/
def applyDirective (env : Env) (config : Config) (lower value : Str) : Except Error Config :=
  if lower = "user".toList then
    .ok { config with user := trimStart value }
  else if lower = "hostname".toList then
    .ok { config with host_name := config.expand_tokens (trimStart value) }
  else if lower = "port".toList then
    .ok (match parseU16 (trimStart value) with
      | some p => { config with port := p }
      | none => config)
  else if lower = "identityfile".toList then
    (resolveFile env (trimStart value)).map
      (fun id => { config with identity_file := some id })
  else if lower = "proxycommand".toList then
    .ok { config with proxy_command := some (trimStart value) }
  else if lower = "proxyjump".toList then
    .ok { config with proxy_jump := some (trimStart value) }
  else if lower = "addkeystoagent".toList then
    .ok { config with add_keys_to_agent :=
      (if toLower value = "yes".toList then AddKeysToAgent.Yes
      else if toLower value = "confirm".toList then AddKeysToAgent.Confirm
      else if toLower value = "ask".toList then AddKeysToAgent.Ask
      else AddKeysToAgent.No) }
  else if lower = "userknownhostsfile".toList then
    (resolveFile env (trimStart value)).map
      (fun id => { config with user_known_hosts_file := some id })
  else if lower = "stricthostkeychecking".toList then
    .ok { config with strict_host_key_checking :=
      (if toLower value = "no".toList then false else true) }
  else
    .ok config

/-- Embeds the reassignment of `matches_current` (lib.rs lines 126-131):
a `host` key re-decides the matching state as "any pattern of the line
matches the alias"; any other key leaves the previous state. -/
def newMatches (host : Str) (prev : Bool) (lower value : Str) : Bool :=
  if lower = "host".toList then
    (splitWhitespace value).any (fun x => check_host_against_glob_pattern host x)
  else prev

/-- Embeds the `if matches_current { match lower.as_str() ... }` block of
`parse` (lib.rs lines 132-210): while the current block matches, the
directive is dispatched; otherwise the profile is untouched. -/
def stepMatched (env : Env) (mc : Bool) (config : Config) (lower value : Str) :
    Except Error (Bool × Config) :=
  if mc then
    match applyDirective env config lower value with
    | .ok c => .ok (mc, c)
    | .error e => .error e
  else .ok (mc, config)

/-- Embeds one iteration of the line loop of `parse` (lib.rs lines
122-211): trim the line, split at the first space, skip lines without two
pieces; otherwise update the matching state and dispatch. The state is the
pair (matches_current, config). -/
def processLine (env : Env) (host : Str) (st : Bool × Config) (line : Str) :
    Except Error (Bool × Config) :=
  match splitn2 ' ' (trim line) with
  | [key, value] =>
    stepMatched env (newMatches host st.1 (toLower key) value) st.2 (toLower key) value
  | _ => .ok st

/-- The line loop of `parse` from an arbitrary state. -/
def foldLines (env : Env) (host : Str) (st : Bool × Config) (lines : List Str) :
    Except Error (Bool × Config) :=
  lines.foldlM (processLine env host) st

/-- The line loop of `parse` from its initial state (not matching, default
profile), over an explicit list of lines; exposes the final matching state. -/
def parseLinesSt (env : Env) (host : Str) (lines : List Str) :
    Except Error (Bool × Config) :=
  foldLines env host (false, Config.default env host) lines

/-- The profile from running the line loop over an explicit list of lines. -/
def parseLines (env : Env) (host : Str) (lines : List Str) : Except Error Config :=
  (parseLinesSt env host lines).map (fun st => st.2)

/-- Embeds `parse` (lib.rs lines 119-214): split the text into lines and
run the directive state machine. -/
def parse (env : Env) (file : Str) (host : Str) : Except Error Config :=
  parseLines env host (rustLines file)

/-- Opaque model of a resolved socket address. -/
abbrev SocketAddr := Nat

/-- The external address resolver consumed by `Config::stream`
(`ToSocketAddrs::to_socket_addrs`): may fail with an I/O error message, or
yield a (possibly empty) candidate list. -/
structure StreamEnv where
  resolve : Str → Nat → Except Str (List SocketAddr)

/-- What `Config::stream` hands to the external stream provider: either a
proxy command with its argument list, or a direct connection to the first
resolved address. -/
inductive StreamResult
  | proxy_command (cmd : Str) (args : List Str)
  | tcp_connect (addr : SocketAddr)
deriving DecidableEq

/-- Embeds `Config::stream` (lib.rs lines 75-89): with a proxy command,
expand it and split on single spaces into command name and arguments for
the spawn-proxy provider; otherwise resolve the host and port, failing
with `NotResolvable` when no candidate exists, else hand the first address
to the direct-connect provider. -/
def Config.stream (senv : StreamEnv) (c : Config) : Except Error StreamResult :=
  match c.proxy_command with
  | some proxy_command =>
    let cmd := splitAllOn ' ' (c.expand_tokens proxy_command)
    .ok (.proxy_command (cmd.headD []) (cmd.drop 1))
  | none =>
    match senv.resolve c.host_name c.port with
    | .error e => .error (.IoE e)
    | .ok addrs =>
      match addrs.head? with
      | none => .error .NotResolvable
      | some a => .ok (.tcp_connect a)

/-! ### Observers and line constructors used by the statements -/

/-- Names of the directive keys that write a profile field. -/
inductive DKey
  | user
  | hostname
  | port
  | identityfile
  | proxycommand
  | proxyjump
  | addkeystoagent
  | userknownhostsfile
  | stricthostkeychecking
deriving DecidableEq

/-- The lower-case key string of a directive. -/
def keyName : DKey → Str
  | .user => "user".toList
  | .hostname => "hostname".toList
  | .port => "port".toList
  | .identityfile => "identityfile".toList
  | .proxycommand => "proxycommand".toList
  | .proxyjump => "proxyjump".toList
  | .addkeystoagent => "addkeystoagent".toList
  | .userknownhostsfile => "userknownhostsfile".toList
  | .stricthostkeychecking => "stricthostkeychecking".toList

/-- A profile field value, across the different field types. -/
inductive FieldVal
  | str (v : Str)
  | ostr (v : Option Str)
  | nat (v : Nat)
  | bool (v : Bool)
  | agent (v : AddKeysToAgent)
deriving DecidableEq

/-- The field of the profile written by a given directive key. -/
def fieldOf : DKey → Config → FieldVal
  | .user, c => .str c.user
  | .hostname, c => .str c.host_name
  | .port, c => .nat c.port
  | .identityfile, c => .ostr c.identity_file
  | .proxycommand, c => .ostr c.proxy_command
  | .proxyjump, c => .ostr c.proxy_jump
  | .addkeystoagent, c => .agent c.add_keys_to_agent
  | .userknownhostsfile, c => .ostr c.user_known_hosts_file
  | .stricthostkeychecking, c => .bool c.strict_host_key_checking

/-- A config line `<key> <value>`, the two pieces separated by one space. -/
def mkLine (key value : Str) : Str := key ++ ' ' :: value

/-- A `Host` line for the given pattern text. -/
def hostLine (p : Str) : Str := mkLine ("Host".toList) p

/-- A directive line for the given key and value. -/
def dirLine (k : DKey) (v : Str) : Str := mkLine (keyName k) v

/-- The lower-cased key of a line as the parser sees it (`none` when the
trimmed line does not split into two pieces and is therefore skipped). -/
def lowerKeyOf (l : Str) : Option Str :=
  match splitn2 ' ' (trim l) with
  | [k, _] => some (toLower k)
  | _ => none

/-- Decides that a line is not a `Host` line whose pattern list matches
`host` (used to state claim C9's hypothesis over concrete files). -/
def noHostMatch (host : Str) (l : Str) : Bool :=
  match splitn2 ' ' (trim l) with
  | [k, v] =>
    if toLower k = "host".toList then
      (splitWhitespace v).all (fun p => !(check_host_against_glob_pattern host p))
    else true
  | _ => true

/-- Decides that a string's first character, if any, is not whitespace. -/
def headNonWs (s : Str) : Bool :=
  match s.head? with
  | some c => !c.isWhitespace
  | none => true

/-- Decides that a string's last character, if any, is not whitespace. -/
def lastNonWs (s : Str) : Bool :=
  match s.getLast? with
  | some c => !c.isWhitespace
  | none => true

/-- Decides that a string contains no space character. -/
def noSpace (s : Str) : Bool := s.all (fun c => !(c == ' '))

/-- Decides that a string contains no whitespace character at all. -/
def noWs (s : Str) : Bool := s.all (fun c => !c.isWhitespace)

/-! ### String lemmas -/

theorem trimStart_cons (c : Char) (s : Str) (h : c.isWhitespace = false) :
    trimStart (c :: s) = c :: s := by
  simp [trimStart, List.dropWhile_cons, h]

theorem trimEnd_of_last (s : Str) (h : lastNonWs s = true) : trimEnd s = s := by
  unfold trimEnd
  match hr : s.reverse with
  | [] =>
    have : s = [] := by simpa using congrArg List.reverse hr
    simp [this]
  | c :: t =>
    have hl : s.getLast? = some c := by
      rw [← List.head?_reverse, hr]; rfl
    unfold lastNonWs at h
    rw [hl] at h
    simp only [Bool.not_eq_true'] at h
    rw [List.dropWhile_cons, if_neg (by simp [h]), ← hr, List.reverse_reverse]

theorem trim_of (s : Str) (h1 : headNonWs s = true) (h2 : lastNonWs s = true) :
    trim s = s := by
  have hs : trimStart s = s := by
    match s with
    | [] => rfl
    | c :: t =>
      unfold headNonWs at h1
      simp only [List.head?, Bool.not_eq_true'] at h1
      exact trimStart_cons c t h1
  rw [trim, hs, trimEnd_of_last s h2]

theorem splitFirst_append (key v : Str) (hk : noSpace key = true) :
    splitFirst ' ' (key ++ ' ' :: v) = some (key, v) := by
  induction key with
  | nil => simp [splitFirst]
  | cons c cs ih =>
    unfold noSpace at hk
    simp only [List.all_cons, Bool.and_eq_true, Bool.not_eq_true', beq_eq_false_iff_ne,
      ne_eq] at hk
    obtain ⟨hc, hcs⟩ := hk
    simp only [List.cons_append, splitFirst, if_neg hc, List.append_eq]
    rw [ih hcs]

theorem splitn2_mk (key v : Str) (hk : noSpace key = true) :
    splitn2 ' ' (key ++ ' ' :: v) = [key, v] := by
  rw [splitn2, splitFirst_append key v hk]

theorem splitWsAux_nows (s : Str) (h : noWs s = true) :
    ∀ acc : Str, acc ≠ [] → splitWsAux s acc = [acc.reverse ++ s] := by
  induction s with
  | nil => intro acc hne; simp [splitWsAux, hne]
  | cons c t ih =>
    intro acc hne
    unfold noWs at h
    simp only [List.all_cons, Bool.and_eq_true, Bool.not_eq_true'] at h
    obtain ⟨hc, ht⟩ := h
    rw [splitWsAux, if_neg (by simp [hc])]
    rw [ih ht (c :: acc) (by simp)]
    simp

theorem splitWhitespace_single (p : Str) (hne : p ≠ []) (h : noWs p = true) :
    splitWhitespace p = [p] := by
  match p with
  | c :: t =>
    unfold noWs at h
    simp only [List.all_cons, Bool.and_eq_true, Bool.not_eq_true'] at h
    obtain ⟨hc, ht⟩ := h
    rw [splitWhitespace, splitWsAux, if_neg (by simp [hc])]
    rw [splitWsAux_nows t ht [c] (by simp)]
    simp

theorem getLast?_mkLine (key v : Str) (hv : v ≠ []) :
    (mkLine key v).getLast? = v.getLast? := by
  have : mkLine key v = (key ++ [' ']) ++ v := by simp [mkLine]
  rw [this, List.getLast?_append_of_ne_nil _ hv]

theorem headNonWs_mkLine (key v : Str) (hk : key ≠ []) (hkw : headNonWs key = true) :
    headNonWs (mkLine key v) = true := by
  match key with
  | c :: cs =>
    unfold headNonWs at hkw ⊢
    simpa [mkLine] using hkw

theorem lastNonWs_mkLine (key v : Str) (hv : v ≠ []) (hvw : lastNonWs v = true) :
    lastNonWs (mkLine key v) = true := by
  unfold lastNonWs at hvw ⊢
  rw [getLast?_mkLine key v hv]
  exact hvw

theorem processLine_mk (env : Env) (host : Str) (st : Bool × Config) (key value : Str)
    (hk : key ≠ []) (hks : noSpace key = true) (hkw : headNonWs key = true)
    (hv : value ≠ []) (hvw : lastNonWs value = true) :
    processLine env host st (mkLine key value) =
      stepMatched env (newMatches host st.1 (toLower key) value) st.2 (toLower key) value := by
  have htrim : trim (mkLine key value) = mkLine key value :=
    trim_of _ (headNonWs_mkLine key value hk hkw) (lastNonWs_mkLine key value hv hvw)
  unfold processLine
  rw [htrim, mkLine, splitn2_mk key value hks]

/-! ### Fold, preservation and error-shape lemmas -/

theorem foldLines_nil (env : Env) (host : Str) (st : Bool × Config) :
    foldLines env host st [] = .ok st := rfl

theorem foldLines_cons (env : Env) (host : Str) (st : Bool × Config) (l : Str)
    (ls : List Str) :
    foldLines env host st (l :: ls) =
      processLine env host st l >>= fun st1 => foldLines env host st1 ls := by
  simp [foldLines, List.foldlM_cons]

theorem foldLines_append (env : Env) (host : Str) (st : Bool × Config)
    (l1 l2 : List Str) :
    foldLines env host st (l1 ++ l2) =
      foldLines env host st l1 >>= fun st1 => foldLines env host st1 l2 := by
  simp [foldLines, List.foldlM_append]

theorem except_bind_ok {α β : Type} (a : α) (f : α → Except Error β) :
    ((Except.ok a : Except Error α) >>= f) = f a := rfl

theorem except_bind_error {α β : Type} (e : Error) (f : α → Except Error β) :
    ((Except.error e : Except Error α) >>= f) = .error e := rfl

theorem except_map_ok {α β : Type} (f : α → β) (a : α) :
    (Except.ok a : Except Error α).map f = .ok (f a) := rfl

theorem except_map_error {α β : Type} (f : α → β) (e : Error) :
    (Except.error e : Except Error α).map f = .error e := rfl

theorem keyName_facts (k : DKey) :
    toLower (keyName k) = keyName k ∧ keyName k ≠ "host".toList ∧ keyName k ≠ [] ∧
      noSpace (keyName k) = true ∧ headNonWs (keyName k) = true := by
  cases k <;> exact ⟨by decide, by decide, by decide, by decide, by decide⟩

theorem joinHome_shape (home : OsPath) (rest : Str) :
    (∃ s, joinHome home rest = .ok s) ∨ ∃ m, joinHome home rest = .error (.IoE m) := by
  unfold joinHome
  cases (home.push rest).to_str
  · right; exact ⟨_, rfl⟩
  · left; exact ⟨_, rfl⟩

theorem tildeExpand_shape (env : Env) (id : Str) :
    (∃ s, tildeExpand env id = .ok s) ∨ tildeExpand env id = .error .NoHome ∨
      ∃ m, tildeExpand env id = .error (.IoE m) := by
  unfold tildeExpand
  by_cases hp : List.isPrefixOf ("~/".toList) id = true
  · rw [if_pos hp]
    cases env.home_dir with
    | none => right; left; rfl
    | some home =>
      rcases joinHome_shape home (id.drop 2) with ⟨s, hs⟩ | ⟨m, hs⟩
      · left; exact ⟨s, hs⟩
      · right; right; exact ⟨m, hs⟩
  · rw [if_neg hp]
    left; exact ⟨_, rfl⟩

theorem resolveFile_shape (env : Env) (v : Str) :
    (∃ s, resolveFile env v = .ok s) ∨ resolveFile env v = .error .NoHome ∨
      ∃ m, resolveFile env v = .error (.IoE m) :=
  tildeExpand_shape env (stripQuotes v)

set_option maxHeartbeats 4000000 in
theorem applyDirective_preserve (env : Env) (c c' : Config) (lower value : Str)
    (k : DKey) (hne : lower ≠ keyName k)
    (h : applyDirective env c lower value = .ok c') :
    fieldOf k c' = fieldOf k c := by
  unfold applyDirective at h
  split_ifs at h with h1 h2 h3 h4 h5 h6 h7 h8 h9 h10 h11 h12 h13
  · injection h with h; subst h
    cases k <;> first | rfl | exact absurd h1 hne
  · injection h with h; subst h
    cases k <;> first | rfl | exact absurd h2 hne
  · injection h with h; subst h
    cases hp : parseU16 (trimStart value) with
    | none => rfl
    | some p => cases k <;> first | rfl | exact absurd h3 hne
  · rcases resolveFile_shape env (trimStart value) with ⟨s, hs⟩ | hs | ⟨m, hs⟩ <;>
      rw [hs] at h
    · rw [except_map_ok] at h
      injection h with h; subst h
      cases k <;> first | rfl | exact absurd h4 hne
    · rw [except_map_error] at h; exact Except.noConfusion h
    · rw [except_map_error] at h; exact Except.noConfusion h
  · injection h with h; subst h
    cases k <;> first | rfl | exact absurd h5 hne
  · injection h with h; subst h
    cases k <;> first | rfl | exact absurd h6 hne
  · injection h with h; subst h
    cases k <;> first | rfl | exact absurd h7 hne
  · injection h with h; subst h
    cases k <;> first | rfl | exact absurd h7 hne
  · injection h with h; subst h
    cases k <;> first | rfl | exact absurd h7 hne
  · injection h with h; subst h
    cases k <;> first | rfl | exact absurd h7 hne
  · rcases resolveFile_shape env (trimStart value) with ⟨s, hs⟩ | hs | ⟨m, hs⟩ <;>
      rw [hs] at h
    · rw [except_map_ok] at h
      injection h with h; subst h
      cases k <;> first | rfl | exact absurd h11 hne
    · rw [except_map_error] at h; exact Except.noConfusion h
    · rw [except_map_error] at h; exact Except.noConfusion h
  · injection h with h; subst h
    cases k <;> first | rfl | exact absurd h12 hne
  · injection h with h; subst h
    cases k <;> first | rfl | exact absurd h12 hne
  · injection h with h; subst h
    rfl

theorem stepMatched_preserve (env : Env) (mc : Bool) (config : Config)
    (lower value : Str) (st' : Bool × Config) (k : DKey)
    (hne : lower ≠ keyName k)
    (h : stepMatched env mc config lower value = .ok st') :
    fieldOf k st'.2 = fieldOf k config := by
  unfold stepMatched at h
  by_cases hmc : mc = true
  · rw [if_pos hmc] at h
    cases hap : applyDirective env config lower value with
    | error e => rw [hap] at h; exact Except.noConfusion h
    | ok c =>
      rw [hap] at h
      injection h with h; subst h
      exact applyDirective_preserve env config c lower value k hne hap
  · rw [if_neg hmc] at h
    injection h with h; subst h; rfl

theorem processLine_preserve (env : Env) (host : Str) (st st' : Bool × Config)
    (l : Str) (k : DKey) (hne : lowerKeyOf l ≠ some (keyName k))
    (h : processLine env host st l = .ok st') :
    fieldOf k st'.2 = fieldOf k st.2 := by
  unfold processLine at h
  unfold lowerKeyOf at hne
  split at h
  case _ key value heq =>
    rw [heq] at hne
    dsimp only at hne
    have hne' : toLower key ≠ keyName k := fun h' => hne (by rw [h'])
    exact stepMatched_preserve env _ st.2 (toLower key) value st' k hne' h
  case _ =>
    injection h with h; subst h; rfl

theorem foldLines_preserve (env : Env) (host : Str) (k : DKey) :
    ∀ (lines : List Str) (st st' : Bool × Config),
      (∀ l ∈ lines, lowerKeyOf l ≠ some (keyName k)) →
      foldLines env host st lines = .ok st' →
      fieldOf k st'.2 = fieldOf k st.2 := by
  intro lines
  induction lines with
  | nil =>
    intro st st' _ h
    rw [foldLines_nil] at h
    injection h with h; subst h; rfl
  | cons l ls ih =>
    intro st st' hall h
    rw [foldLines_cons] at h
    cases hp : processLine env host st l with
    | error e =>
      rw [hp, except_bind_error] at h
      exact Except.noConfusion h
    | ok st1 =>
      rw [hp, except_bind_ok] at h
      have h1 := processLine_preserve env host st st1 l k (hall l (by simp)) hp
      have h2 := ih st1 st' (fun l hl => hall l (by simp [hl])) h
      rw [h2, h1]

theorem mapConfig_shape (r : Except Error Str) (f : Str → Config)
    (h : (∃ s, r = .ok s) ∨ r = .error .NoHome ∨ ∃ m, r = .error (.IoE m)) :
    (∃ c', r.map f = .ok c') ∨ r.map f = .error .NoHome ∨
      ∃ m, r.map f = .error (.IoE m) := by
  rcases h with ⟨s, hs⟩ | hs | ⟨m, hs⟩ <;> subst hs
  · left; exact ⟨f s, rfl⟩
  · right; left; rfl
  · right; right; exact ⟨m, rfl⟩

set_option maxHeartbeats 4000000 in
theorem applyDirective_error (env : Env) (c : Config) (lower value : Str) (e : Error)
    (h : applyDirective env c lower value = .error e) :
    e = .NoHome ∨ ∃ m, e = .IoE m := by
  unfold applyDirective at h
  split_ifs at h <;>
    first
      | exact Except.noConfusion h
      | (rcases resolveFile_shape env (trimStart value) with ⟨s, hs⟩ | hs | ⟨m, hs⟩ <;>
          rw [hs] at h <;>
          first
            | (rw [except_map_ok] at h; exact Except.noConfusion h)
            | (rw [except_map_error] at h; injection h with h; left; exact h.symm)
            | (rw [except_map_error] at h; injection h with h; right; exact ⟨_, h.symm⟩))

theorem applyDirective_shape (env : Env) (c : Config) (lower value : Str) :
    (∃ c', applyDirective env c lower value = .ok c') ∨
      applyDirective env c lower value = .error .NoHome ∨
      ∃ m, applyDirective env c lower value = .error (.IoE m) := by
  cases ha : applyDirective env c lower value with
  | ok c' => left; exact ⟨c', rfl⟩
  | error e =>
    rcases applyDirective_error env c lower value e ha with he | ⟨m, he⟩
    · right; left; rw [he]
    · right; right; exact ⟨m, by rw [he]⟩

theorem stepMatched_shape (env : Env) (mc : Bool) (config : Config)
    (lower value : Str) :
    (∃ st', stepMatched env mc config lower value = .ok st') ∨
      stepMatched env mc config lower value = .error .NoHome ∨
      ∃ m, stepMatched env mc config lower value = .error (.IoE m) := by
  unfold stepMatched
  by_cases hmc : mc = true
  · rw [if_pos hmc]
    rcases applyDirective_shape env config lower value with ⟨c', hc⟩ | hc | ⟨m, hc⟩ <;>
      rw [hc]
    · left; exact ⟨_, rfl⟩
    · right; left; rfl
    · right; right; exact ⟨_, rfl⟩
  · rw [if_neg hmc]
    left; exact ⟨_, rfl⟩

theorem processLine_shape (env : Env) (host : Str) (st : Bool × Config) (l : Str) :
    (∃ st', processLine env host st l = .ok st') ∨
      processLine env host st l = .error .NoHome ∨
      ∃ m, processLine env host st l = .error (.IoE m) := by
  unfold processLine
  split
  · exact stepMatched_shape env _ st.2 _ _
  · left; exact ⟨_, rfl⟩

theorem foldLines_shape (env : Env) (host : Str) :
    ∀ (lines : List Str) (st : Bool × Config),
      (∃ st', foldLines env host st lines = .ok st') ∨
        foldLines env host st lines = .error .NoHome ∨
        ∃ m, foldLines env host st lines = .error (.IoE m) := by
  intro lines
  induction lines with
  | nil => intro st; left; exact ⟨st, rfl⟩
  | cons l ls ih =>
    intro st
    rw [foldLines_cons]
    rcases processLine_shape env host st l with ⟨st1, h1⟩ | h1 | ⟨m, h1⟩ <;> rw [h1]
    · rw [except_bind_ok]
      exact ih st1
    · rw [except_bind_error]
      right; left; rfl
    · rw [except_bind_error]
      right; right; exact ⟨_, rfl⟩

/-! ### Evaluation lemmas for single directives -/

theorem stepMatched_false (env : Env) (config : Config) (lower value : Str) :
    stepMatched env false config lower value = .ok (false, config) := rfl

theorem stepMatched_true (env : Env) (config : Config) (lower value : Str) :
    stepMatched env true config lower value =
      (applyDirective env config lower value).map (fun c2 => ((true : Bool), c2)) := by
  unfold stepMatched
  rw [if_pos rfl]
  cases applyDirective env config lower value <;> rfl

theorem applyDirective_user (env : Env) (c : Config) (v : Str) :
    applyDirective env c ("user".toList) v = .ok { c with user := trimStart v } := by
  unfold applyDirective
  rw [if_pos rfl]

theorem applyDirective_port (env : Env) (c : Config) (v : Str) :
    applyDirective env c ("port".toList) v =
      .ok (match parseU16 (trimStart v) with
        | some p => { c with port := p }
        | none => c) := by
  unfold applyDirective
  rw [if_neg (by decide), if_neg (by decide), if_pos rfl]

theorem applyDirective_addkeys (env : Env) (c : Config) (v : Str) :
    applyDirective env c ("addkeystoagent".toList) v =
      .ok { c with add_keys_to_agent :=
        (if toLower v = "yes".toList then AddKeysToAgent.Yes
         else if toLower v = "confirm".toList then AddKeysToAgent.Confirm
         else if toLower v = "ask".toList then AddKeysToAgent.Ask
         else AddKeysToAgent.No) } := by
  unfold applyDirective
  rw [if_neg (by decide), if_neg (by decide), if_neg (by decide), if_neg (by decide),
    if_neg (by decide), if_neg (by decide), if_pos rfl]

theorem applyDirective_shkc (env : Env) (c : Config) (v : Str) :
    applyDirective env c ("stricthostkeychecking".toList) v =
      .ok { c with strict_host_key_checking :=
        (if toLower v = "no".toList then false else true) } := by
  unfold applyDirective
  rw [if_neg (by decide), if_neg (by decide), if_neg (by decide), if_neg (by decide),
    if_neg (by decide), if_neg (by decide), if_neg (by decide), if_neg (by decide),
    if_pos rfl]

theorem applyDirective_host (env : Env) (c : Config) (v : Str) :
    applyDirective env c ("host".toList) v = .ok c := by
  unfold applyDirective
  rw [if_neg (by decide), if_neg (by decide), if_neg (by decide), if_neg (by decide),
    if_neg (by decide), if_neg (by decide), if_neg (by decide), if_neg (by decide),
    if_neg (by decide)]

theorem processLine_dir (env : Env) (host : Str) (c : Config) (key value lower : Str)
    (hk : key ≠ []) (hks : noSpace key = true) (hkw : headNonWs key = true)
    (hv : value ≠ []) (hvw : lastNonWs value = true)
    (hl : toLower key = lower) (hnh : lower ≠ "host".toList) :
    processLine env host (true, c) (mkLine key value) =
      (applyDirective env c lower value).map (fun c2 => ((true : Bool), c2)) := by
  rw [processLine_mk env host (true, c) key value hk hks hkw hv hvw, hl]
  show stepMatched env (newMatches host true lower value) c lower value = _
  unfold newMatches
  rw [if_neg hnh]
  exact stepMatched_true env c lower value

theorem stepMatched_hostkey (env : Env) (mc : Bool) (config : Config) (value : Str) :
    stepMatched env mc config ("host".toList) value = .ok (mc, config) := by
  by_cases hmc : mc = true
  · subst hmc
    rw [stepMatched_true, applyDirective_host]
    rfl
  · have : mc = false := by cases mc <;> simp_all
    subst this
    exact stepMatched_false env config _ _

theorem tails_any_globMatch_nil (s : Str) :
    s.tails.any (fun t => globMatch [] t) = true := by
  induction s with
  | nil => rfl
  | cons c cs ih =>
    rw [List.tails_cons]
    simp only [List.any_cons]
    rw [ih]
    simp

theorem any_eq_false_of_all_not {α : Type} (l : List α) (f : α → Bool)
    (h : l.all (fun x => !(f x)) = true) : l.any f = false := by
  induction l with
  | nil => rfl
  | cons a t ih =>
    simp only [List.all_cons, Bool.and_eq_true, Bool.not_eq_true'] at h
    simp [List.any_cons, h.1, ih h.2]

theorem foldLines_noMatch (env : Env) (host : Str) :
    ∀ (lines : List Str) (c : Config),
      (∀ l ∈ lines, noHostMatch host l = true) →
      foldLines env host (false, c) lines = .ok (false, c) := by
  intro lines
  induction lines with
  | nil => intro c _; rfl
  | cons l ls ih =>
    intro c hall
    rw [foldLines_cons]
    have hl : processLine env host (false, c) l = .ok (false, c) := by
      unfold processLine
      split
      case _ key value heq =>
        have hnm := hall l (by simp)
        unfold noHostMatch at hnm
        rw [heq] at hnm
        dsimp only at hnm
        show stepMatched env (newMatches host false (toLower key) value) c
          (toLower key) value = _
        unfold newMatches
        by_cases hk : toLower key = "host".toList
        · rw [if_pos hk] at hnm ⊢
          rw [any_eq_false_of_all_not _ _ hnm]
          exact stepMatched_false env c _ _
        · rw [if_neg hk]
          exact stepMatched_false env c _ _
      case _ => rfl
    rw [hl, except_bind_ok]
    exact ih c (fun l' hl' => hall l' (by simp [hl']))

/-! ### Concrete inputs used by the closed examples -/

/-- An environment with user `carol` and home directory `/home/bob`. -/
def envB : Env := ⟨"carol".toList, some ⟨some ("/home/bob".toList)⟩⟩

/-- An environment with user `carol` and no home directory. -/
def envN : Env := ⟨"carol".toList, none⟩

/-! ### Claim theorems -/

/-- C2: for every environment, config text and alias, `parse` either
returns a profile or fails with exactly `NoHome` or an I/O-kind error;
it is a total function (so it cannot panic) and no input produces any
other error kind — malformed input is tolerated silently. -/
theorem C2_parse_error_kinds (env : Env) (file host : Str) :
    (∃ c, parse env file host = .ok c) ∨ parse env file host = .error .NoHome ∨
      ∃ m, parse env file host = .error (.IoE m) := by
  unfold parse parseLines parseLinesSt
  rcases foldLines_shape env host (rustLines file) (false, Config.default env host)
    with ⟨st, h⟩ | h | ⟨m, h⟩ <;> rw [h]
  · left; exact ⟨st.2, rfl⟩
  · right; left; rfl
  · right; right; exact ⟨m, rfl⟩

/-- C3: token expansion is sequential literal substring replacement in the
fixed order `%u`, `%h`, `%H`, `%p`, `%%`, each pass on the result of the
previous, so a substituted field value containing a later token is itself
re-substituted; `expand("%u@%h:%p")` on user `bob`, host `x.example`,
port 2222 yields `bob@x.example:2222`, and `expand("100%%")` yields
`100%`. -/
theorem C3_expand_tokens_sequential :
    (∀ (c : Config) (s : Str),
      c.expand_tokens s =
        replaceAll ("%%".toList) ("%".toList)
          (replaceAll ("%p".toList) (Nat.toDigits 10 c.port)
            (replaceAll ("%H".toList) c.host_name
              (replaceAll ("%h".toList) c.host_name
                (replaceAll ("%u".toList) c.user s))))) ∧
    Config.expand_tokens
        { user := "bob".toList, host_name := "x.example".toList, port := 2222,
          identity_file := none, proxy_command := none, proxy_jump := none,
          add_keys_to_agent := .No, user_known_hosts_file := none,
          strict_host_key_checking := true } ("%u@%h:%p".toList) =
      "bob@x.example:2222".toList ∧
    Config.expand_tokens
        { user := "bob".toList, host_name := "x.example".toList, port := 2222,
          identity_file := none, proxy_command := none, proxy_jump := none,
          add_keys_to_agent := .No, user_known_hosts_file := none,
          strict_host_key_checking := true } ("100%%".toList) = "100%".toList ∧
    Config.expand_tokens
        { user := "%h".toList, host_name := "x.example".toList, port := 2222,
          identity_file := none, proxy_command := none, proxy_jump := none,
          add_keys_to_agent := .No, user_known_hosts_file := none,
          strict_host_key_checking := true } ("%u".toList) = "x.example".toList :=
  ⟨fun _ _ => rfl, by decide, by decide, by decide⟩

/-- C4: a `Port` directive in a matching block overwrites the port only
when its value parses as an unsigned 16-bit integer; on any value that
does not parse the previous port is kept and no error is raised; the
default port is 22, and `notanumber` and the out-of-range `70000` are
examples of values that do not parse. -/
theorem C4_port_directive (env : Env) (host : Str) (c : Config) (v : Str)
    (hv : v ≠ []) (hvw : lastNonWs v = true) :
    (Config.default env host).port = 22 ∧
    (∀ p, parseU16 (trimStart v) = some p →
      processLine env host (true, c) (mkLine ("Port".toList) v) =
        .ok (true, { c with port := p })) ∧
    (parseU16 (trimStart v) = none →
      processLine env host (true, c) (mkLine ("Port".toList) v) = .ok (true, c)) ∧
    parseU16 ("notanumber".toList) = none ∧
    parseU16 ("70000".toList) = none := by
  have hdir := processLine_dir env host c ("Port".toList) v ("port".toList)
    (by decide) (by decide) (by decide) hv hvw (by decide) (by decide)
  rw [applyDirective_port env c v] at hdir
  refine ⟨rfl, ?_, ?_, by decide, by decide⟩
  · intro p hp
    rw [hdir, hp]
    rfl
  · intro hp
    rw [hdir, hp]
    rfl

/-- C5: a pattern that fails to compile as a glob never matches (the
matcher returns `false`, not an error); `*` matches every alias; `web?`
matches `web1` but not `webapp`; and a `Host` line with several
space-separated patterns sets the matching state to true exactly when at
least one of its patterns matches the alias. -/
theorem C5_host_pattern_matching (cand pat : Str) (env : Env) (host : Str)
    (st : Bool × Config) (rest : Str)
    (hbad : globCompile pat = none)
    (hre : rest ≠ []) (hrw : lastNonWs rest = true) :
    check_host_against_glob_pattern cand pat = false ∧
    check_host_against_glob_pattern cand ("*".toList) = true ∧
    check_host_against_glob_pattern ("web1".toList) ("web?".toList) = true ∧
    check_host_against_glob_pattern ("webapp".toList) ("web?".toList) = false ∧
    processLine env host st (mkLine ("Host".toList) rest) =
      .ok ((splitWhitespace rest).any
        (fun x => check_host_against_glob_pattern host x), st.2) := by
  refine ⟨?_, ?_, by decide, by decide, ?_⟩
  · unfold check_host_against_glob_pattern
    rw [hbad]
  · unfold check_host_against_glob_pattern
    show globMatch [GlobTok.star] cand = true
    show cand.tails.any (fun t => globMatch [] t) = true
    exact tails_any_globMatch_nil cand
  · rw [processLine_mk env host st ("Host".toList) rest
      (by decide) (by decide) (by decide) hre hrw]
    have hl : toLower ("Host".toList) = "host".toList := by decide
    rw [hl]
    show stepMatched env (newMatches host st.1 ("host".toList) rest) st.2
      ("host".toList) rest = _
    unfold newMatches
    rw [if_pos rfl]
    exact stepMatched_hostkey env _ st.2 rest

theorem lastNonWs_cons (c : Char) (w : Str) (hw : w ≠ []) (h : lastNonWs w = true) :
    lastNonWs (c :: w) = true := by
  match w, hw with
  | b :: t, _ => exact h

theorem ne_of_head {a b : Str} (h : ¬(a.head? = b.head?)) : ¬(a = b) :=
  fun he => h (congrArg List.head? he)

theorem toLower_space_ne (w t : Str) (h : ¬((some ' ' : Option Char) = t.head?)) :
    ¬(toLower (' ' :: w) = t) :=
  fun he => h (show (some ' ' : Option Char) = t.head? from congrArg List.head? he)

theorem stripQuotes_wrapped (inner : Str) :
    stripQuotes (squote :: inner ++ [squote]) = inner := by
  have hlen : (squote :: inner ++ [squote]).length > 1 := by
    simp [List.length_append]
  have hhead : (squote :: inner ++ [squote]).head? = some squote := rfl
  have hlast : (squote :: inner ++ [squote]).getLast? = some squote := by
    rw [show squote :: inner ++ [squote] = (squote :: inner) ++ [squote] from rfl]
    exact List.getLast?_concat _
  unfold stripQuotes
  rw [if_pos ⟨hlen, hhead, hlast⟩]
  show (inner ++ [squote]).dropLast = inner
  exact List.dropLast_concat ..

theorem isPrefixOf_tilde (s : Str) (h : List.isPrefixOf ("~/".toList) s = true) :
    ∃ rest, s = '~' :: '/' :: rest := by
  match s with
  | [] => exact absurd h (by decide)
  | [c] =>
    rw [show ("~/".toList) = ['~', '/'] from rfl] at h
    simp [List.isPrefixOf] at h
  | a :: b :: t =>
    rw [show ("~/".toList) = ['~', '/'] from rfl] at h
    simp only [List.isPrefixOf, Bool.and_eq_true, beq_iff_eq] at h
    obtain ⟨h1, h2, _⟩ := h
    subst h1
    subst h2
    exact ⟨t, rfl⟩

/-- C6: for an `identityfile` (and identically `userknownhostsfile`)
directive value: one layer of straight quotes is stripped when both ends
are quoted and the value is longer than one character; if the unwrapped
value starts with `~/` it is joined to the home directory (`NoHome` when
unavailable), otherwise it is stored verbatim; in particular
`IdentityFile '~/.ssh/id_ed25519'` with home `/home/bob` yields
`/home/bob/.ssh/id_ed25519`. -/
theorem C6_identity_file_resolution (env : Env) :
    (∀ id rest home, stripQuotes id = '~' :: '/' :: rest →
      env.home_dir = some ⟨some home⟩ →
      resolveFile env id = .ok (home ++ '/' :: rest)) ∧
    (∀ id rest, stripQuotes id = '~' :: '/' :: rest →
      env.home_dir = none →
      resolveFile env id = .error .NoHome) ∧
    (∀ id, (∀ rest, stripQuotes id ≠ '~' :: '/' :: rest) →
      resolveFile env id = .ok (stripQuotes id)) ∧
    (∀ inner, stripQuotes (squote :: inner ++ [squote]) = inner) ∧
    parse envB ("Host x\nIdentityFile '~/.ssh/id_ed25519'".toList) ("x".toList) =
      .ok { user := "carol".toList, host_name := "x".toList, port := 22,
            identity_file := some ("/home/bob/.ssh/id_ed25519".toList),
            proxy_command := none, proxy_jump := none,
            add_keys_to_agent := .No, user_known_hosts_file := none,
            strict_host_key_checking := true } := by
  refine ⟨?_, ?_, ?_, stripQuotes_wrapped, by decide⟩
  · intro id rest home h1 h2
    have htilde : List.isPrefixOf ("~/".toList) ('~' :: '/' :: rest) = true := by
      rw [show ("~/".toList) = ['~', '/'] from rfl]
      simp [List.isPrefixOf]
    unfold resolveFile tildeExpand
    rw [h1, if_pos htilde, h2]
    rfl
  · intro id rest h1 h2
    have htilde : List.isPrefixOf ("~/".toList) ('~' :: '/' :: rest) = true := by
      rw [show ("~/".toList) = ['~', '/'] from rfl]
      simp [List.isPrefixOf]
    unfold resolveFile tildeExpand
    rw [h1, if_pos htilde, h2]
  · intro id h1
    unfold resolveFile tildeExpand
    rw [if_neg ?hn]
    case hn =>
      intro hpre
      rcases isPrefixOf_tilde (stripQuotes id) hpre with ⟨rest, hr⟩
      exact h1 rest hr

/-- C7: `strict_host_key_checking` defaults to true; a
`StrictHostKeyChecking` directive in a matching block sets it to false
exactly when its value is `no` compared case-insensitively, and to true on
every other value; a line carrying any other key leaves the field
unchanged (so an absent directive leaves it true). -/
theorem C7_strict_host_key_checking (env : Env) (host : Str) (c : Config) (v l : Str)
    (st st' : Bool × Config)
    (hv : v ≠ []) (hvw : lastNonWs v = true)
    (hne : lowerKeyOf l ≠ some ("stricthostkeychecking".toList))
    (hpl : processLine env host st l = .ok st') :
    (Config.default env host).strict_host_key_checking = true ∧
    processLine env host (true, c) (mkLine ("StrictHostKeyChecking".toList) v) =
      .ok (true, { c with strict_host_key_checking :=
        (if toLower v = "no".toList then false else true) }) ∧
    st'.2.strict_host_key_checking = st.2.strict_host_key_checking := by
  refine ⟨rfl, ?_, ?_⟩
  · rw [processLine_dir env host c _ _ ("stricthostkeychecking".toList) (by decide)
      (by decide) (by decide) hv hvw (by decide) (by decide), applyDirective_shkc]
    rfl
  · have hpres := processLine_preserve env host st st' l .stricthostkeychecking hne hpl
    simpa [fieldOf] using hpres

/-- C8: stream establishment takes the proxy branch precisely when
`proxy_command` is set: the command is token-expanded, split on single
spaces into a command name and the remaining arguments, and handed to the
spawn-proxy provider; otherwise the host and port are resolved, the call
fails with `NotResolvable` exactly when resolution yields no candidate
addresses, and else the first resolved address goes to the direct-connect
provider. -/
theorem C8_stream_dispatch (senv : StreamEnv) (c : Config) :
    (∀ pc, c.proxy_command = some pc →
      Config.stream senv c = .ok (.proxy_command
        ((splitAllOn ' ' (c.expand_tokens pc)).headD [])
        ((splitAllOn ' ' (c.expand_tokens pc)).drop 1))) ∧
    (c.proxy_command = none →
      ((Config.stream senv c = .error .NotResolvable ↔
          senv.resolve c.host_name c.port = .ok []) ∧
        (∀ a rest, senv.resolve c.host_name c.port = .ok (a :: rest) →
          Config.stream senv c = .ok (.tcp_connect a)))) := by
  constructor
  · intro pc hpc
    unfold Config.stream
    rw [hpc]
  · intro hnone
    unfold Config.stream
    rw [hnone]
    refine ⟨⟨?_, ?_⟩, ?_⟩
    · intro hs
      cases hr : senv.resolve c.host_name c.port with
      | error e => rw [hr] at hs; exact absurd hs (by simp)
      | ok addrs =>
        cases addrs with
        | nil => rfl
        | cons a t => rw [hr] at hs; exact absurd hs (by simp)
    · intro hr
      rw [hr]
      rfl
    · intro a rest hr
      rw [hr]
      rfl

/-- C9: when no `Host` pattern in the text matches the alias, `parse`
succeeds with the default-seeded profile unchanged (user = current
process user, host name = the alias, port 22, no identity file, proxy
command, proxy jump or known-hosts file, agent policy `No`, strict host
key checking true) and never returns `HostNotFound`; directives before the
first `Host` line never apply because the state starts as not matching. -/
theorem C9_no_match_default (env : Env) (file host : Str)
    (h : (rustLines file).all (noHostMatch host) = true) :
    parse env file host = .ok (Config.default env host) ∧
    (Config.default env host).user = env.username ∧
    (Config.default env host).host_name = host ∧
    (Config.default env host).port = 22 ∧
    (Config.default env host).identity_file = none ∧
    (Config.default env host).proxy_command = none ∧
    (Config.default env host).proxy_jump = none ∧
    (Config.default env host).add_keys_to_agent = AddKeysToAgent.No ∧
    (Config.default env host).user_known_hosts_file = none ∧
    (Config.default env host).strict_host_key_checking = true := by
  refine ⟨?_, rfl, rfl, rfl, rfl, rfl, rfl, rfl, rfl, rfl⟩
  unfold parse parseLines parseLinesSt
  rw [foldLines_noMatch env host (rustLines file) (Config.default env host)
    (List.all_eq_true.mp h)]
  rfl

/-- C10: `addkeystoagent` and `stricthostkeychecking` compare the raw
remainder after the first space without trimming, so a line whose key and
value are separated by more than one space carries a leading space in the
lower-cased value, the comparison misses, and the fields are forced to
`No` and `true` regardless of the written value — unlike a trimming
directive such as `user`, which still stores the trimmed value. -/
theorem C10_untrimmed_comparisons (env : Env) (host : Str) (c : Config) (w : Str)
    (hw : w ≠ []) (hww : lastNonWs w = true) :
    processLine env host (true, c) (mkLine ("AddKeysToAgent".toList) (' ' :: w)) =
      .ok (true, { c with add_keys_to_agent := AddKeysToAgent.No }) ∧
    processLine env host (true, c) (mkLine ("StrictHostKeyChecking".toList) (' ' :: w)) =
      .ok (true, { c with strict_host_key_checking := true }) ∧
    processLine env host (true, c) (mkLine ("User".toList) (' ' :: w)) =
      .ok (true, { c with user := trimStart w }) := by
  have hvne : (' ' :: w) ≠ ([] : Str) := by simp
  have hvw : lastNonWs (' ' :: w) = true := lastNonWs_cons ' ' w hw hww
  refine ⟨?_, ?_, ?_⟩
  · rw [processLine_dir env host c _ _ ("addkeystoagent".toList) (by decide) (by decide)
      (by decide) hvne hvw (by decide) (by decide), applyDirective_addkeys]
    rw [if_neg (toLower_space_ne w _ (by decide)), if_neg (toLower_space_ne w _ (by decide)),
      if_neg (toLower_space_ne w _ (by decide))]
    rfl
  · rw [processLine_dir env host c _ _ ("stricthostkeychecking".toList) (by decide)
      (by decide) (by decide) hvne hvw (by decide) (by decide), applyDirective_shkc]
    rw [if_neg (toLower_space_ne w _ (by decide))]
    rfl
  · rw [processLine_dir env host c _ _ ("user".toList) (by decide) (by decide)
      (by decide) hvne hvw (by decide) (by decide), applyDirective_user]
    rfl

/-- C1: last-match-wins across blocks — for a config whose lines contain a
first matching `Host` block setting key `k` to `v1` and a later matching
`Host` block setting the same key to a different value `v2` (with
arbitrary further lines before, between and after, none of the trailing
ones touching key `k`), the profile returned by the parser holds, for key
`k`, exactly the value computed from the later block's directive. -/
theorem C1_last_match_wins (env : Env) (host : Str)
    (pre0 mid1 mid2 post : List Str) (p1 p2 v1 v2 : Str) (k : DKey)
    (cmid cfg : Config)
    (hp1 : check_host_against_glob_pattern host p1 = true)
    (hp2 : check_host_against_glob_pattern host p2 = true)
    (hdiff : v1 ≠ v2)
    (hv2 : v2 ≠ []) (hv2w : lastNonWs v2 = true)
    (hpost : ∀ l ∈ post, lowerKeyOf l ≠ some (keyName k))
    (hmid : parseLinesSt env host
        (pre0 ++ hostLine p1 :: mid1 ++ dirLine k v1 :: hostLine p2 :: mid2) =
      .ok (true, cmid))
    (hall : parseLines env host
        (pre0 ++ hostLine p1 :: mid1 ++ dirLine k v1 :: hostLine p2 ::
          (mid2 ++ dirLine k v2 :: post)) = .ok cfg) :
    (applyDirective env cmid (keyName k) v2).map (fieldOf k) = .ok (fieldOf k cfg) := by
  obtain ⟨hkl, hkh, hkne, hkns, hkhw⟩ := keyName_facts k
  have hsplit : pre0 ++ hostLine p1 :: mid1 ++ dirLine k v1 :: hostLine p2 ::
      (mid2 ++ dirLine k v2 :: post) =
      (pre0 ++ hostLine p1 :: mid1 ++ dirLine k v1 :: hostLine p2 :: mid2) ++
        (dirLine k v2 :: post) := by
    simp
  unfold parseLines at hall
  rw [hsplit] at hall
  unfold parseLinesSt at hmid hall
  rw [foldLines_append, hmid, except_bind_ok, foldLines_cons] at hall
  unfold dirLine at hall
  rw [processLine_dir env host cmid (keyName k) v2 (keyName k)
    hkne hkns hkhw hv2 hv2w hkl hkh] at hall
  cases hap : applyDirective env cmid (keyName k) v2 with
  | error e =>
    rw [hap, except_map_error, except_bind_error, except_map_error] at hall
    exact Except.noConfusion hall
  | ok c2 =>
    rw [hap, except_map_ok, except_bind_ok] at hall
    cases hfold : foldLines env host (true, c2) post with
    | error e =>
      rw [hfold, except_map_error] at hall
      exact Except.noConfusion hall
    | ok stf =>
      rw [hfold, except_map_ok] at hall
      injection hall with hall
      have hpres := foldLines_preserve env host k post (true, c2) stf hpost hfold
      rw [except_map_ok, ← hall, hpres]

/-! ### Witnesses -/

/-- The profile after the first block of the C1 witness. -/
def cmidW : Config := { Config.default envB ("example".toList) with user := "alice".toList }

/-- The profile after the whole C1 witness config. -/
def cfgW : Config := { Config.default envB ("example".toList) with user := "bob".toList }

theorem C1_witness :
    (applyDirective envB cmidW (keyName DKey.user) ("bob".toList)).map
        (fieldOf DKey.user) = .ok (fieldOf DKey.user cfgW) :=
  C1_last_match_wins envB ("example".toList) [] [] [] [] ("example".toList)
    ("example".toList) ("alice".toList) ("bob".toList) DKey.user cmidW cfgW
    (by decide) (by decide) (by decide) (by decide) (by decide) (by simp)
    (by decide) (by decide)

theorem C4_witness :
    processLine envB ("x".toList) (true, Config.default envB ("x".toList))
      (mkLine ("Port".toList) ("notanumber".toList)) =
      .ok (true, Config.default envB ("x".toList)) :=
  (C4_port_directive envB ("x".toList) (Config.default envB ("x".toList))
    ("notanumber".toList) (by decide) (by decide)).2.2.1 (by decide)

theorem C5_witness :
    check_host_against_glob_pattern ("anything".toList) ("[".toList) = false ∧
    processLine envB ("web1".toList) (false, Config.default envB ("web1".toList))
      (mkLine ("Host".toList) ("web? other*".toList)) =
      .ok (true, Config.default envB ("web1".toList)) := by
  have h := C5_host_pattern_matching ("anything".toList) ("[".toList) envB
    ("web1".toList) (false, Config.default envB ("web1".toList))
    ("web? other*".toList) (by decide) (by decide) (by decide)
  exact ⟨h.1, by rw [h.2.2.2.2]; decide⟩

theorem C6_witness :
    resolveFile envB ("'~/.ssh/id_ed25519'".toList) =
      .ok ("/home/bob/.ssh/id_ed25519".toList) :=
  (C6_identity_file_resolution envB).1 ("'~/.ssh/id_ed25519'".toList)
    (".ssh/id_ed25519".toList) ("/home/bob".toList) (by decide) rfl

theorem C7_witness :
    processLine envB ("x".toList) (true, Config.default envB ("x".toList))
      (mkLine ("StrictHostKeyChecking".toList) ("no".toList)) =
      .ok (true, { Config.default envB ("x".toList) with
        strict_host_key_checking := false }) :=
  (C7_strict_host_key_checking envB ("x".toList) (Config.default envB ("x".toList))
    ("no".toList) ("User bob".toList) (true, Config.default envB ("x".toList))
    (true, { Config.default envB ("x".toList) with user := "bob".toList })
    (by decide) (by decide) (by decide) (by decide)).2.1

/-- A resolver for the C8 witness: every lookup yields the single
address 7. -/
def senvW : StreamEnv := ⟨fun _ _ => .ok [7]⟩

theorem C8_witness :
    Config.stream senvW { Config.default envB ("h".toList) with
        proxy_command := some ("nc %h".toList) } =
      .ok (.proxy_command ("nc".toList) [("h".toList)]) ∧
    Config.stream senvW (Config.default envB ("h".toList)) = .ok (.tcp_connect 7) :=
  ⟨(C8_stream_dispatch senvW _).1 ("nc %h".toList) rfl,
    ((C8_stream_dispatch senvW _).2 rfl).2 7 [] rfl⟩

theorem C9_witness :
    parse envB ("Host example\n  User alice".toList) ("other".toList) =
      .ok (Config.default envB ("other".toList)) :=
  (C9_no_match_default envB ("Host example\n  User alice".toList) ("other".toList)
    (by decide)).1

theorem C10_witness :
    processLine envB ("x".toList) (true, Config.default envB ("x".toList))
      (mkLine ("AddKeysToAgent".toList) (' ' :: "yes".toList)) =
      .ok (true, Config.default envB ("x".toList)) ∧
    processLine envB ("x".toList) (true, Config.default envB ("x".toList))
      (mkLine ("StrictHostKeyChecking".toList) (' ' :: "no".toList)) =
      .ok (true, Config.default envB ("x".toList)) :=
  ⟨(C10_untrimmed_comparisons envB ("x".toList) (Config.default envB ("x".toList))
      ("yes".toList) (by decide) (by decide)).1,
    (C10_untrimmed_comparisons envB ("x".toList) (Config.default envB ("x".toList))
      ("no".toList) (by decide) (by decide)).2.1⟩

end RusshConfig
